import Mathlib

/-!
Verification of the `pi-natives` search & discovery engine
(`crates/pi-natives/src/grep.rs`, `crates/pi-natives/src/glob.rs`).

The Rust code is shallowly embedded:

* byte strings (`&[u8]`, `String`) are modelled as `List Nat` (one `Nat` per
  byte) where byte-level behaviour matters (line content, truncation at
  UTF-8 character boundaries), and as Lean `String` where the code works
  with text (fuzzy scoring, type filters); Unicode-aware Rust helpers
  (`to_lowercase`, `trim`, `char::is_whitespace`) are modelled on their
  ASCII fragment, which is all the theorems exercise;
* the external regex engine (`grep_regex`) is an opaque capability: a
  compiled matcher is a line predicate `List Nat → Bool`, and the result of
  `RegexMatcherBuilder::build` is an `Except String` value threaded into
  `search_sync` exactly where the Rust code branches on it;
* the external line-oriented searcher (`grep_searcher::Searcher`) is
  modelled by `genEvents`, which turns content lines into the stream of
  `Sink` callbacks (`matched` / `context`) the searcher delivers, honouring
  `before_context` / `after_context` and stopping when the sink returns
  `false` (`runEvents`);
* the `ignore` directory walker is an external collaborator; its output
  (path-sorted, ignore-filtered entries) is the input of the embedded
  `collect_files` / `run_glob` / `fuzzy_find_sync` logic.

All Rust integers in scope are small (`u32`/`u64` counters over list
lengths); they are modelled as `Nat`, with the explicit `clamp_u32`
(`min · (2^32 - 1)`) applied exactly where the source applies it.
-/

namespace PiNatives

/-- Bytes of an ASCII string, used to build concrete line contents. -/
def asciiBytes (s : String) : List Nat := s.toList.map Char.toNat

/-- ASCII fragment of Rust `char::is_whitespace`, on bytes. -/
def isWsByte (b : Nat) : Bool :=
  b = 32 || b = 9 || b = 10 || b = 11 || b = 12 || b = 13

/-- Model of `bytes_to_trimmed_string` (grep.rs): lossless/lossy decode is
the identity at the byte level, `trim_end` drops trailing whitespace. -/
def trimEndBytes (l : List Nat) : List Nat :=
  (l.reverse.dropWhile isWsByte).reverse

/-- Model of `clamp_u32` (grep.rs): `value.min(u32::MAX as u64) as u32`. -/
def clampU32 (value : Nat) : Nat := min value (2 ^ 32 - 1)

/-- A byte that is not a UTF-8 continuation byte, as in Rust
`str::is_char_boundary`. -/
def isUtf8Boundary (b : Nat) : Bool := b < 128 || 192 ≤ b

/-- Rust `str::is_char_boundary` at index `i` of byte string `s`. -/
def isCharBoundaryAt (s : List Nat) (i : Nat) : Bool :=
  if i = 0 then true
  else
    match s.get? i with
    | none => i = s.length
    | some b => isUtf8Boundary b

/-- Rust `str::floor_char_boundary`: the largest index `≤ i` that is a
character boundary (for indices within the string; `s.length` otherwise). -/
def floorCharBoundary (s : List Nat) (i : Nat) : Nat :=
  if s.length ≤ i then s.length
  else ((List.range (i + 1)).filter fun j => isCharBoundaryAt s j).foldl max 0

/-- Model of `MatchCollector::truncate_line` (grep.rs:284-295): lines whose
byte length exceeds `maxColumns` are cut at
`floor_char_boundary(max.saturating_sub(3))` and an ASCII ellipsis is
appended; the returned flag records whether truncation happened. -/
def truncateLine (maxColumns : Option Nat) (line : List Nat) : List Nat × Bool :=
  match maxColumns with
  | some mx =>
    if mx < line.length then
      (line.take (floorCharBoundary line (mx - 3)) ++ asciiBytes "...", true)
    else (line, false)
  | none => (line, false)

/-- Model of `ContextLine` (grep.rs): a context line next to a match. -/
structure ContextLine where
  lineNumber : Nat
  line : List Nat
deriving DecidableEq, Repr

/-- Model of `CollectedMatch` (grep.rs): one accepted match before public conversion. -/
structure CollectedMatch where
  lineNumber : Nat
  line : List Nat
  contextBefore : List ContextLine
  contextAfter : List ContextLine
  truncated : Bool
deriving DecidableEq, Repr

/-- Model of `OutputMode` (grep.rs). -/
inductive OutputMode where
  | content
  | count
deriving DecidableEq, Repr

/-- Model of `MatchCollector` (grep.rs:224-235): the `Sink` state. -/
structure MatchCollector where
  matchesList : List CollectedMatch
  matchCount : Nat
  collectedCount : Nat
  maxCount : Option Nat
  offset : Nat
  skipped : Nat
  limitReached : Bool
  contextBefore : List ContextLine
  maxColumns : Option Nat
  collectMatches : Bool
deriving DecidableEq, Repr

/-- Model of `MatchCollector::new`. -/
def MatchCollector.new (maxCount : Option Nat) (offset : Nat)
    (maxColumns : Option Nat) (collectMatches : Bool) : MatchCollector :=
  ⟨[], 0, 0, maxCount, offset, 0, false, [], maxColumns, collectMatches⟩

/-- Model of `Sink::matched` for `MatchCollector` (grep.rs:307-352).  Returns the
updated state and the `Ok(bool)` telling the searcher whether to go on. -/
def MatchCollector.matched (c : MatchCollector) (lineNumber : Nat)
    (bytes : List Nat) : MatchCollector × Bool :=
  let c := { c with matchCount := c.matchCount + 1 }
  if c.limitReached then (c, false)
  else if c.skipped < c.offset then
    ({ c with skipped := c.skipped + 1, contextBefore := [] }, true)
  else
    let c :=
      if c.collectMatches then
        let raw := trimEndBytes bytes
        let lt := truncateLine c.maxColumns raw
        { c with
            matchesList := c.matchesList ++ [⟨lineNumber, lt.1, c.contextBefore, [], lt.2⟩],
            contextBefore := [] }
      else { c with contextBefore := [] }
    let c := { c with collectedCount := c.collectedCount + 1 }
    let c :=
      match c.maxCount with
      | some mx => if mx ≤ c.collectedCount then { c with limitReached := true } else c
      | none => c
    (c, true)

/-- Model of `SinkContextKind` (grep_searcher). -/
inductive CtxKind where
  | before
  | after
  | other
deriving DecidableEq, Repr

/-- Appending an after-context line to the most recently collected match
(`self.matchesList.last_mut()` in grep.rs:374-378); no-op on an empty list. -/
def appendAfterToLast (ms : List CollectedMatch) (cl : ContextLine) :
    List CollectedMatch :=
  match ms with
  | [] => []
  | [m] => [{ m with contextAfter := m.contextAfter ++ [cl] }]
  | m :: rest => m :: appendAfterToLast rest cl

/-- Model of `Sink::context` for `MatchCollector` (grep.rs:354-385). -/
def MatchCollector.context (c : MatchCollector) (lineNumber : Nat)
    (bytes : List Nat) (kind : CtxKind) : MatchCollector :=
  if !c.collectMatches then c
  else
    let raw := trimEndBytes bytes
    let line := (truncateLine c.maxColumns raw).1
    match kind with
    | .before =>
      { c with contextBefore := c.contextBefore ++ [⟨clampU32 lineNumber, line⟩] }
    | .after =>
      { c with matchesList := appendAfterToLast c.matchesList ⟨clampU32 lineNumber, line⟩ }
    | .other => c

/-- One `Sink` callback delivered by the searcher. -/
inductive Event where
  | lineMatch (lineNumber : Nat) (bytes : List Nat)
  | lineContext (lineNumber : Nat) (bytes : List Nat) (kind : CtxKind)
deriving DecidableEq, Repr

/-- Driving the sink: the searcher delivers events in order and stops as
soon as `matched` returns `false` (`context` never stops the search). -/
def runEvents : List Event → MatchCollector → MatchCollector
  | [], c => c
  | .lineMatch i bytes :: rest, c =>
    let r := c.matched i bytes
    if r.2 then runEvents rest r.1 else r.1
  | .lineContext i bytes kind :: rest, c =>
    runEvents rest (c.context i bytes kind)

/-- The last `n` elements of a list (the searcher's rolling before-context
buffer is bounded by the configured depth). -/
def lastN (n : Nat) (l : List α) : List α := l.drop (l.length - n)

/-- Model of the external line-oriented searcher
(`grep_searcher::Searcher` as configured by `build_searcher`,
grep.rs:516-523): content is matched line by line against the compiled
pattern; when a line matches, the (bounded) buffer of pending preceding
lines is delivered as before-context followed by the match itself; the
`a` lines following a match are delivered as after-context as they are
scanned and are not re-buffered as before-context.  `i` is the 1-based
line number of the head of `ls`, `pending` the rolling buffer of candidate
before-context lines, `afterRem` how many after-context lines are still
owed for the previous match. -/
def genEvents (pred : List Nat → Bool) (b a : Nat) :
    List (List Nat) → Nat → List (Nat × List Nat) → Nat → List Event
  | [], _, _, _ => []
  | l :: ls, i, pending, afterRem =>
    if pred l then
      ((lastN b pending).map fun p => Event.lineContext p.1 p.2 .before) ++
        Event.lineMatch i l :: genEvents pred b a ls (i + 1) [] a
    else if 0 < afterRem then
      Event.lineContext i l .after :: genEvents pred b a ls (i + 1) pending (afterRem - 1)
    else
      genEvents pred b a ls (i + 1) (pending ++ [(i, l)]) 0

/-- Model of `SearchParams` (grep.rs:525-533). -/
structure SearchParams where
  contextBefore : Nat
  contextAfter : Nat
  maxColumns : Option Nat
  mode : OutputMode
  maxCount : Option Nat
  offset : Nat
deriving Repr

/-- Model of `SearchResultInternal` (grep.rs:245-250). -/
structure SearchResultInternal where
  matchesList : List CollectedMatch
  matchCount : Nat
  collected : Nat
  limitReached : Bool
deriving DecidableEq, Repr

/-- Model of `run_search_reader` (grep.rs:544-574): build the searcher (context only
in content mode), run the collector sink over the delivered events. -/
def runSearchReader (pred : List Nat → Bool) (content : List (List Nat))
    (params : SearchParams) : SearchResultInternal :=
  let b := if params.mode = .content then params.contextBefore else 0
  let a := if params.mode = .content then params.contextAfter else 0
  let c0 := MatchCollector.new params.maxCount params.offset params.maxColumns
    (params.mode = .content)
  let c := runEvents (genEvents pred b a content 1 [] 0) c0
  ⟨c.matchesList, c.matchCount, c.collectedCount, c.limitReached⟩

/-- Public `Match` (grep.rs:128-143). -/
structure PubMatch where
  lineNumber : Nat
  line : List Nat
  contextBefore : Option (List ContextLine)
  contextAfter : Option (List ContextLine)
  truncated : Option Bool
deriving DecidableEq, Repr

/-- Empty context lists become `None` in the public structures
(`to_public_match` / `to_grep_match`). -/
def listToOpt (l : List ContextLine) : Option (List ContextLine) :=
  if l.isEmpty then none else some l

/-- Model of `to_public_match` (grep.rs:576-594). -/
def toPublicMatch (m : CollectedMatch) : PubMatch :=
  ⟨clampU32 m.lineNumber, m.line, listToOpt m.contextBefore,
    listToOpt m.contextAfter, if m.truncated then some true else none⟩

/-- Public `SearchResult` (grep.rs:146-158). -/
structure SearchResult where
  matchesList : List PubMatch
  matchCount : Nat
  limitReached : Bool
  error : Option String
deriving DecidableEq, Repr

/-- Model of `empty_search_result` (grep.rs:618-620). -/
def emptySearchResult (error : Option String) : SearchResult :=
  ⟨[], 0, false, error⟩

/-- Model of `parse_output_mode` (grep.rs:391-396). -/
def parseOutputMode (mode : Option String) : OutputMode :=
  match mode with
  | some "count" => .count
  | some "filesWithMatches" => .count
  | _ => .content

/-- Model of `resolve_context` (grep.rs:503-514). -/
def resolveContext (context contextBefore contextAfter : Option Nat) :
    Nat × Nat :=
  if contextBefore.isSome || contextAfter.isSome then
    (contextBefore.getD 0, contextAfter.getD 0)
  else
    let v := context.getD 0
    (v, v)

/-- Model of `SearchOptions` (grep.rs:44-71); `pattern`/`ignoreCase`/`multiline` feed
only the external `build_matcher` call, whose outcome is passed to
`searchSync` directly. -/
structure SearchOptions where
  maxCount : Option Nat := none
  offset : Option Nat := none
  contextBefore : Option Nat := none
  contextAfter : Option Nat := none
  context : Option Nat := none
  maxColumns : Option Nat := none
  mode : Option String := none
deriving Repr

/-- Model of `search_sync` (grep.rs:799-827).  `compiled` is the outcome of the
external `build_matcher(pattern, ignore_case, multiline)` call: a line
predicate on success, the `Regex error: …` description on failure. -/
def searchSync (compiled : Except String (List Nat → Bool))
    (content : List (List Nat)) (options : SearchOptions) : SearchResult :=
  match compiled with
  | .error e => emptySearchResult (some e)
  | .ok pred =>
    let mode := parseOutputMode options.mode
    let cba := resolveContext options.context options.contextBefore options.contextAfter
    let params : SearchParams :=
      ⟨cba.1, cba.2, options.maxColumns, mode, options.maxCount, options.offset.getD 0⟩
    let result := runSearchReader pred content params
    ⟨result.matchesList.map toPublicMatch, clampU32 result.matchCount,
      result.limitReached, none⟩

/-- The raw matches of a content: 1-indexed lines satisfying the pattern. -/
def rawMatches (pred : List Nat → Bool) (content : List (List Nat)) :
    List (Nat × List Nat) :=
  (List.enumFrom 1 content).filter fun p => pred p.2

/-! Section: Generic executable helpers (string/list primitives used by the code) -/

/-- Whether needle occurs at the start of the second list. -/
def seqStartsWith [BEq α] : List α → List α → Bool
  | [], _ => true
  | _ :: _, [] => false
  | a :: as, b :: bs => a == b && seqStartsWith as bs

/-- Whether needle occurs contiguously somewhere in the list (Rust `contains`). -/
def seqContains [BEq α] (needle : List α) : List α → Bool
  | [] => needle.isEmpty
  | b :: bs => seqStartsWith needle (b :: bs) || seqContains needle bs

/-- A matcher compiled from a literal pattern: a line matches iff it
contains the pattern bytes (how `grep_regex` treats a literal regex). -/
def litMatcher (s : String) : List Nat → Bool :=
  fun line => seqContains (asciiBytes s) line

/-- ASCII fragment of Rust `char::to_lowercase`. -/
def asciiLowerChar (c : Char) : Char :=
  if 65 ≤ c.toNat ∧ c.toNat ≤ 90 then Char.ofNat (c.toNat + 32) else c

/-- ASCII fragment of Rust `str::to_lowercase`. -/
def asciiLowerStr (s : String) : String := String.mk (s.toList.map asciiLowerChar)

/-- ASCII fragment of Rust `char::is_whitespace`. -/
def isWsChar (c : Char) : Bool :=
  c.toNat = 32 || c.toNat = 9 || c.toNat = 10 || c.toNat = 11 || c.toNat = 12 || c.toNat = 13

/-- Rust `str::trim` (ASCII fragment). -/
def rustTrim (s : String) : String :=
  String.mk (((s.toList.dropWhile isWsChar).reverse.dropWhile isWsChar).reverse)

/-- Rust `str::eq_ignore_ascii_case`. -/
def eqIgnoreAsciiCase (a b : String) : Bool :=
  a.toList.map asciiLowerChar == b.toList.map asciiLowerChar

/-- Rust `str.contains(needle)` on strings. -/
def strContains (hay needle : String) : Bool := seqContains needle.toList hay.toList

/-- Rust `str.starts_with(needle)` on strings. -/
def strStartsWith (hay needle : String) : Bool := seqStartsWith needle.toList hay.toList

/-- Byte/codepoint-lexicographic `<` on chars (Rust `String` ordering). -/
def charListLt : List Char → List Char → Bool
  | [], [] => false
  | [], _ :: _ => true
  | _ :: _, [] => false
  | a :: as, b :: bs => a.toNat < b.toNat || (a == b && charListLt as bs)

/-- Rust `String`/`str` ordering (lexicographic; agrees with UTF-8 byte
order). -/
def strLt (a b : String) : Bool := charListLt a.toList b.toList

/-- Lexicographic `<` on path segment lists (Rust `Path` component
ordering, used by `sort_by_file_path`). -/
def segListLt : List String → List String → Bool
  | [], [] => false
  | [], _ :: _ => true
  | _ :: _, [] => false
  | a :: as, b :: bs => strLt a b || (a == b && segListLt as bs)

/-- Insert `x` after all elements it is not strictly below: the insertion
step of a stable sort by the strict comparator `lt`. -/
def insertBy (lt : α → α → Bool) (x : α) : List α → List α
  | [] => [x]
  | y :: ys => if lt x y then x :: y :: ys else y :: insertBy lt x ys

/-- Stable insertion sort by a strict comparator (models Rust's stable
`sort_by`, with `lt a b ↔ cmp(a, b) = Less`). -/
def stableSortBy (lt : α → α → Bool) (l : List α) : List α :=
  l.foldl (fun acc x => insertBy lt x acc) []

/-- Split a char list on `/` (Rust `str::split('/')`). -/
def splitSlash : List Char → List (List Char)
  | [] => [[]]
  | c :: cs =>
    if c = '/' then [] :: splitSlash cs
    else
      match splitSlash cs with
      | [] => [[c]]
      | g :: gs => (c :: g) :: gs

/-- Path components of a `/`-separated relative path string. -/
def slashComponents (s : String) : List String := (splitSlash s.toList).map String.mk

/-! Section: Type filters (grep.rs:203-222, 432-487) -/

/-- Model of `TypeFilter` (grep.rs:203-206). -/
inductive TypeFilter where
  | known (exts : List String) (names : List String)
  | custom (ext : String)
deriving DecidableEq, Repr

/-- Model of `TypeFilter::match_ext` (grep.rs:209-214).  In the `Custom` arm the
source reads `Self::Custom(ext) => ext.eq_ignore_ascii_case(ext)`: the
pattern binding `ext` shadows the candidate-extension parameter, so the
stored filter value is compared against itself. -/
def TypeFilter.matchExt : TypeFilter → String → Bool
  | .known exts _, ext => exts.any fun e => eqIgnoreAsciiCase ext e
  | .custom stored, _ => eqIgnoreAsciiCase stored stored

/-- Model of `TypeFilter::match_name` (grep.rs:216-221). -/
def TypeFilter.matchName : TypeFilter → String → Bool
  | .known _ names, name => names.any fun n => eqIgnoreAsciiCase name n
  | .custom stored, name => eqIgnoreAsciiCase stored name

/-- The characters after the last `.` of a file name. -/
def afterLastDot (cs : List Char) : List Char :=
  (cs.reverse.takeWhile fun c => c ≠ '.').reverse

/-- Rust `Path::extension` on a file name: `none` when there is no `.`, or
when the name begins with `.` and has no other `.`; otherwise the portion
after the final `.`. -/
def rustExtension (name : String) : Option String :=
  let cs := name.toList
  let dotCount := (cs.filter fun c => c = '.').length
  if dotCount = 0 then none
  else if cs.head? = some '.' ∧ dotCount = 1 then none
  else some (String.mk (afterLastDot cs))

/-- Model of `matches_type_filter` (grep.rs:474-487); a path is its list of
segments, its base name the last segment. -/
def matchesTypeFilter (path : List String) (filter : TypeFilter) : Bool :=
  let baseName := (path.getLast?).getD ""
  if filter.matchName baseName then true
  else
    let ext := (rustExtension baseName).getD ""
    if ext = "" then false
    else filter.matchExt ext

/-- Rust `str::trim_start_matches('.')`. -/
def trimStartDots (s : String) : String :=
  String.mk (s.toList.dropWhile fun c => c = '.')

/-- Model of `resolve_type_filter` (grep.rs:432-472). -/
def resolveTypeFilter (typeName : Option String) : Option TypeFilter :=
  match typeName with
  | none => none
  | some raw =>
    let t := rustTrim raw
    if t = "" then none
    else
      let normalized := asciiLowerStr (trimStartDots t)
      let pair : Option (List String × List String) :=
        match normalized with
        | "js" | "javascript" => some (["js", "jsx", "mjs", "cjs"], [])
        | "ts" | "typescript" => some (["ts", "tsx", "mts", "cts"], [])
        | "json" => some (["json", "jsonc", "json5"], [])
        | "yaml" | "yml" => some (["yaml", "yml"], [])
        | "toml" => some (["toml"], [])
        | "md" | "markdown" => some (["md", "markdown", "mdx"], [])
        | "py" | "python" => some (["py", "pyi"], [])
        | "rs" | "rust" => some (["rs"], [])
        | "go" => some (["go"], [])
        | "java" => some (["java"], [])
        | "kt" | "kotlin" => some (["kt", "kts"], [])
        | "c" => some (["c", "h"], [])
        | "cpp" | "cxx" => some (["cpp", "cc", "cxx", "hpp", "hxx", "hh"], [])
        | "cs" | "csharp" => some (["cs", "csx"], [])
        | "php" => some (["php", "phtml"], [])
        | "rb" | "ruby" => some (["rb", "rake", "gemspec"], [])
        | "sh" | "bash" => some (["sh", "bash", "zsh"], [])
        | "zsh" => some (["zsh"], [])
        | "fish" => some (["fish"], [])
        | "html" => some (["html", "htm"], [])
        | "css" => some (["css"], [])
        | "scss" => some (["scss"], [])
        | "sass" => some (["sass"], [])
        | "less" => some (["less"], [])
        | "xml" => some (["xml"], [])
        | "docker" | "dockerfile" => some ([], ["dockerfile"])
        | "make" | "makefile" => some ([], ["makefile"])
        | _ => none
      match pair with
      | some p => some (.known p.1 p.2)
      | none => some (.custom normalized)

/-! Section: grep over the filesystem (grep.rs:640-1033)

The `ignore` walker is external: `collect_files` receives its output — the
entries under the root (path-sorted by the builder's `sort_by_file_path`,
already filtered by gitignore/hidden rules) — as a list of `FsEntry`
carrying the relative path segments, whether the entry is a regular file,
and the file's (line-split, size-bounded) content. -/

/-- A walker-produced filesystem entry with its content. -/
structure FsEntry where
  path : List String
  isFile : Bool
  content : List (List Nat)
deriving DecidableEq, Repr

/-- Whether a path contains a given segment. -/
def hasSegment (segs : List String) (target : String) : Bool :=
  segs.contains target

/-- Model of `normalize_relative_path` composed over segments: forward-slash join. -/
def joinPath (segs : List String) : String :=
  String.intercalate "/" segs

/-- Model of `FileEntry` (grep.rs:252-255), with content attached. -/
structure FileEntryM where
  path : List String
  relativePath : String
  content : List (List Nat)
deriving DecidableEq, Repr

/-- The compiled glob set of a grep call, applied to the relative path
(`glob_set.is_match(relative)`); `none` when no glob was supplied. -/
def globAllows (globSet : Option (List String → Bool)) (path : List String) : Bool :=
  match globSet with
  | some g => g path
  | none => true

/-- The optional type filter of a grep call. -/
def typeAllows (filter : Option TypeFilter) (path : List String) : Bool :=
  match filter with
  | some f => matchesTypeFilter path f
  | none => true

/-- Model of `collect_files` (grep.rs:640-683): walk (path-sorted), prune entries
named `.git` (`filter_entry`), keep regular files, apply the glob against
the relative path and then the type filter. -/
def collectFiles (walkerEntries : List FsEntry)
    (globSet : Option (List String → Bool)) (typeFilter : Option TypeFilter) :
    List FileEntryM :=
  ((stableSortBy (fun a b => segListLt a.path b.path) walkerEntries).filter fun e =>
      !hasSegment e.path ".git" && e.isFile && globAllows globSet e.path &&
        typeAllows typeFilter e.path).map
    fun e => ⟨e.path, joinPath e.path, e.content⟩

/-- Model of `GrepMatch` (grep.rs:160-182). -/
structure GrepMatchM where
  path : String
  lineNumber : Nat
  line : List Nat
  contextBefore : Option (List ContextLine)
  contextAfter : Option (List ContextLine)
  truncated : Option Bool
  matchCount : Option Nat
deriving DecidableEq, Repr

/-- Model of `to_grep_match` (grep.rs:596-616). -/
def toGrepMatch (path : String) (m : CollectedMatch) : GrepMatchM :=
  ⟨path, clampU32 m.lineNumber, m.line, listToOpt m.contextBefore,
    listToOpt m.contextAfter, if m.truncated then some true else none, none⟩

/-- Model of `GrepResult` (grep.rs:184-201). -/
structure GrepResultM where
  matchesList : List GrepMatchM
  totalMatches : Nat
  filesWithMatches : Nat
  filesSearched : Nat
  limitReached : Option Bool
deriving DecidableEq, Repr

/-- Model of `FileSearchResult` (grep.rs:257-261). -/
structure FileSearchResultM where
  relativePath : String
  matchesList : List CollectedMatch
  matchCount : Nat
deriving DecidableEq, Repr

/-- Model of `run_parallel_search` (grep.rs:697-723): every file searched with no
per-file offset/limit, results sorted by relative path. -/
def runParallelSearch (entries : List FileEntryM) (pred : List Nat → Bool)
    (contextBefore contextAfter : Nat) (maxColumns : Option Nat)
    (mode : OutputMode) : List FileSearchResultM :=
  let params : SearchParams := ⟨contextBefore, contextAfter, maxColumns, mode, none, 0⟩
  stableSortBy (fun a b => strLt a.relativePath b.relativePath)
    (entries.map fun e =>
      let s := runSearchReader pred e.content params
      ⟨e.relativePath, s.matchesList, s.matchCount⟩)

/-- The running state of `run_sequential_search` (grep.rs:731-736). -/
structure SeqState where
  matchesList : List GrepMatchM
  totalMatches : Nat
  collected : Nat
  filesWithMatches : Nat
  filesSearched : Nat
  limitReached : Bool
deriving DecidableEq, Repr

/-- The loop of `run_sequential_search` (grep.rs:738-794); the model
assumes every file opens successfully. -/
def runSequentialLoop (pred : List Nat → Bool) (params : SearchParams) :
    List FileEntryM → SeqState → SeqState
  | [], st => st
  | entry :: rest, st =>
    if st.limitReached then st
    else
      let fileOffset := params.offset - st.totalMatches
      let remaining := params.maxCount.map fun mx => mx - st.collected
      if remaining = some 0 then { st with limitReached := true }
      else
        let st := { st with filesSearched := st.filesSearched + 1 }
        let fileParams := { params with maxCount := remaining, offset := fileOffset }
        let search := runSearchReader pred entry.content fileParams
        if search.matchCount = 0 then runSequentialLoop pred params rest st
        else
          let st := { st with
            filesWithMatches := st.filesWithMatches + 1,
            totalMatches := st.totalMatches + search.matchCount,
            collected := st.collected + search.collected }
          let st :=
            match params.mode with
            | .content =>
              { st with matchesList :=
                  st.matchesList ++ search.matchesList.map (toGrepMatch entry.relativePath) }
            | .count =>
              { st with matchesList := st.matchesList ++
                  [⟨entry.relativePath, 0, [], none, none, none,
                    some (clampU32 search.matchCount)⟩] }
          let st :=
            if search.limitReached ||
                (match params.maxCount with
                 | some mx => mx ≤ st.collected
                 | none => false) then
              { st with limitReached := true }
            else st
          runSequentialLoop pred params rest st

/-- Model of `run_sequential_search` (grep.rs:725-797). -/
def runSequentialSearch (entries : List FileEntryM) (pred : List Nat → Bool)
    (params : SearchParams) : SeqState :=
  runSequentialLoop pred params entries ⟨[], 0, 0, 0, 0, false⟩

/-- Model of `GrepConfig` fields relevant past matcher compilation. -/
structure GrepOptions where
  maxCount : Option Nat := none
  offset : Option Nat := none
  contextBefore : Option Nat := none
  contextAfter : Option Nat := none
  context : Option Nat := none
  maxColumns : Option Nat := none
  mode : Option String := none
deriving Repr

/-- The directory branch of `grep_sync` (grep.rs:934-1033): collect files,
pick the parallel strategy when there is no global `max_count`/`offset`,
otherwise run the sequential loop; aggregate counters and clamp. -/
def grepSyncDir (walkerEntries : List FsEntry) (pred : List Nat → Bool)
    (globSet : Option (List String → Bool)) (typeFilter : Option TypeFilter)
    (options : GrepOptions) : GrepResultM :=
  let outputMode := parseOutputMode options.mode
  let cba := resolveContext options.context options.contextBefore options.contextAfter
  let contextBefore := if outputMode = .content then cba.1 else 0
  let contextAfter := if outputMode = .content then cba.2 else 0
  let maxCount := options.maxCount
  let offset := (options.offset).getD 0
  let entries := collectFiles walkerEntries globSet typeFilter
  if entries.isEmpty then ⟨[], 0, 0, 0, none⟩
  else
    let allowParallel := maxCount.isNone && offset = 0
    if allowParallel then
      let results := runParallelSearch entries pred contextBefore contextAfter
        options.maxColumns outputMode
      let filesSearched := clampU32 results.length
      let withM := results.filter fun r => r.matchCount ≠ 0
      let matchesOut := withM.foldl
        (fun acc r =>
          match outputMode with
          | .content => acc ++ r.matchesList.map (toGrepMatch r.relativePath)
          | .count =>
            acc ++ [⟨r.relativePath, 0, [], none, none, none,
              some (clampU32 r.matchCount)⟩])
        []
      let totalMatches := withM.foldl (fun acc r => acc + r.matchCount) 0
      ⟨matchesOut, clampU32 totalMatches, clampU32 withM.length, filesSearched, none⟩
    else
      let st := runSequentialSearch entries pred
        ⟨contextBefore, contextAfter, options.maxColumns, outputMode, maxCount, offset⟩
      ⟨st.matchesList, clampU32 st.totalMatches, st.filesWithMatches, st.filesSearched,
        if st.limitReached then some true else none⟩

/-! Section: glob (glob.rs) -/

/-- Model of `FileType` (glob.rs:66-75). -/
inductive FileType where
  | file
  | dir
  | symlink
deriving DecidableEq, Repr

/-- Model of `GlobMatch` (glob.rs:77-88); `mtime` (an `f64` of milliseconds in the
source) is modelled as a `Nat` of milliseconds. -/
structure GlobMatchM where
  path : String
  fileType : FileType
  mtime : Option Nat
deriving DecidableEq, Repr

/-- Model of `contains_component` (glob.rs:154-161) on a slash-joined relative
path. -/
def containsComponentStr (p target : String) : Bool :=
  (slashComponents p).contains target

/-- Model of `should_skip_path` (glob.rs:163-173). -/
def shouldSkipPath (p : String) (mentionsNodeModules : Bool) : Bool :=
  containsComponentStr p ".git" ||
    (!mentionsNodeModules && containsComponentStr p "node_modules")

/-- Model of `GlobResult` (glob.rs:90-97). -/
structure GlobResultM where
  matchesList : List GlobMatchM
  totalMatches : Nat
deriving DecidableEq, Repr

/-- The entry loop of `run_glob` (glob.rs:361-384): skip-path policy, glob
match, file-type filter, early break at `max_results` when not sorting by
mtime. -/
def runGlobLoop (globPred : String → Bool) (fileTypeFilter : Option FileType)
    (maxResults : Nat) (mentionsNodeModules sortByMtime : Bool) :
    List GlobMatchM → List GlobMatchM → List GlobMatchM
  | [], acc => acc
  | e :: rest, acc =>
    if shouldSkipPath e.path mentionsNodeModules then
      runGlobLoop globPred fileTypeFilter maxResults mentionsNodeModules sortByMtime rest acc
    else if !globPred e.path then
      runGlobLoop globPred fileTypeFilter maxResults mentionsNodeModules sortByMtime rest acc
    else if (match fileTypeFilter with
             | some f => decide (f ≠ e.fileType)
             | none => false) then
      runGlobLoop globPred fileTypeFilter maxResults mentionsNodeModules sortByMtime rest acc
    else
      let acc := acc ++ [e]
      if !sortByMtime && maxResults ≤ acc.length then acc
      else runGlobLoop globPred fileTypeFilter maxResults mentionsNodeModules sortByMtime rest acc

/-- Model of `run_glob` (glob.rs:335-398) past glob compilation and cache retrieval:
`entries` is the cached scan (node_modules kept, `.git` pruned),
`globPred` the compiled glob set applied to the relative path string. -/
def runGlob (entries : List GlobMatchM) (globPred : String → Bool)
    (fileTypeFilter : Option FileType) (maxResults : Nat)
    (mentionsNodeModules sortByMtime : Bool) : GlobResultM :=
  if maxResults = 0 then ⟨[], 0⟩
  else
    let ms := runGlobLoop globPred fileTypeFilter maxResults mentionsNodeModules
      sortByMtime entries []
    let ms :=
      if sortByMtime then
        (stableSortBy (fun a b => (b.mtime).getD 0 < (a.mtime).getD 0) ms).take maxResults
      else ms
    ⟨ms, clampU32 ms.length⟩

/-! Section: fuzzy find (grep.rs:1216-1347) -/

/-- Model of `normalize_fuzzy_text` (grep.rs:1217-1223). -/
def normalizeFuzzyText (s : String) : String :=
  String.mk ((s.toList.filter fun ch =>
    !(isWsChar ch) &&
      !(ch = '/' || ch = '\\' || ch = '.' || ch = '_' || ch = '-')).map asciiLowerChar)

/-- The scan loop of `fuzzy_subsequence_score` (grep.rs:1230-1245): walk
the enumerated target, consuming query characters in order and counting
non-adjacent jumps; returns the unconsumed query suffix and the gap
count. -/
def fuzzyLoop : List Char → List (Nat × Char) → Nat → Option Nat → List Char × Nat
  | qs, [], gaps, _ => (qs, gaps)
  | [], _, gaps, _ => ([], gaps)
  | q :: qrest, (ti, tc) :: trest, gaps, lastIdx =>
    if q = tc then
      let gaps :=
        match lastIdx with
        | some li => if li + 1 < ti then gaps + 1 else gaps
        | none => gaps
      fuzzyLoop qrest trest gaps (some ti)
    else fuzzyLoop (q :: qrest) trest gaps lastIdx

/-- Model of `fuzzy_subsequence_score` (grep.rs:1224-1251). -/
def fuzzySubsequenceScore (query target : String) : Nat :=
  let qchars := query.toList
  if qchars.isEmpty then 1
  else
    let r := fuzzyLoop qchars target.toList.enum 0 none
    if !r.1.isEmpty then 0
    else max (40 - r.2 * 5) 1

/-- Rust `str::trim_end_matches('/')`. -/
def trimEndSlashes (s : String) : String :=
  String.mk ((s.toList.reverse.dropWhile fun c => c = '/').reverse)

/-- Model of `Path::file_name` of the slash-trimmed path, `unwrap_or` the trimmed
path itself (grep.rs:1255-1259): the last nonempty `/`-separated segment. -/
def rustFileName (s : String) : String :=
  match ((slashComponents s).filter fun seg => seg ≠ "").getLast? with
  | some seg => seg
  | none => s

/-- Model of `score_fuzzy_path` (grep.rs:1252-1290). -/
def scoreFuzzyPath (path : String) (isDirectory : Bool)
    (queryLower normalizedQuery : String) : Nat :=
  let lowerPath := asciiLowerStr path
  let normalizedPath := normalizeFuzzyText path
  let fileNameSource := trimEndSlashes path
  let fileName := rustFileName fileNameSource
  let lowerFileName := asciiLowerStr fileName
  let normalizedFileName := normalizeFuzzyText fileName
  let score :=
    if queryLower = "" then 1
    else if lowerFileName = queryLower then 120
    else if strStartsWith lowerFileName queryLower then 100
    else if strContains lowerFileName queryLower then 80
    else if strContains lowerPath queryLower then 60
    else
      let fileNameFuzzy := fuzzySubsequenceScore normalizedQuery normalizedFileName
      if 0 < fileNameFuzzy then 50 + fileNameFuzzy
      else
        let pathFuzzy := fuzzySubsequenceScore normalizedQuery normalizedPath
        if 0 < pathFuzzy then 30 + pathFuzzy else 0
  if isDirectory && 0 < score then score + 10 else score

/-- Model of `FuzzyFindMatch` (grep.rs:1187-1196). -/
structure FuzzyFindMatchM where
  path : String
  isDirectory : Bool
  score : Nat
deriving DecidableEq, Repr

/-- Model of `FuzzyFindResult` (grep.rs:1197-1205). -/
structure FuzzyFindResultM where
  matchesList : List FuzzyFindMatchM
  totalMatches : Nat
deriving DecidableEq, Repr

/-- The scoring loop of `fuzzy_find_sync` (grep.rs:1319-1341): skip
symlinks, give directories a trailing `/`, drop zero scores. -/
def fuzzyScoredEntries (entries : List GlobMatchM)
    (queryLower normalizedQuery : String) : List FuzzyFindMatchM :=
  entries.filterMap fun entry =>
    if entry.fileType = .symlink then none
    else
      let isDirectory := entry.fileType = .dir
      let path := if isDirectory then entry.path ++ "/" else entry.path
      let score := scoreFuzzyPath path isDirectory queryLower normalizedQuery
      if score = 0 then none
      else some ⟨path, isDirectory, score⟩

/-- The comparator of `scored_entries.sort_by` (grep.rs:1343): descending
score, ties broken by ascending path (the `Less` case of the source's
`b.score.cmp(&a.score).then_with(|| a.path.cmp(&b.path))`). -/
def fuzzyLtComparator (a b : FuzzyFindMatchM) : Bool :=
  b.score < a.score || (b.score = a.score && strLt a.path b.path)

/-- Model of `fuzzy_find_sync` (grep.rs:1291-1347) past path resolution and cache
retrieval: `entries` is the cached directory scan. -/
def fuzzyFindSync (entries : List GlobMatchM) (query : String)
    (maxResults : Nat) : FuzzyFindResultM :=
  if maxResults = 0 then ⟨[], 0⟩
  else
    let queryLower := asciiLowerStr (rustTrim query)
    let normalizedQuery := normalizeFuzzyText queryLower
    if queryLower ≠ "" ∧ normalizedQuery = "" then ⟨[], 0⟩
    else
      let scored := fuzzyScoredEntries entries queryLower normalizedQuery
      let sorted := stableSortBy fuzzyLtComparator scored
      ⟨sorted.take maxResults, clampU32 scored.length⟩

/-- The internal record `Sink::matched` pushes for a raw match `(line
number, bytes)` when no context is pending. -/
def collectedOf (mx : Option Nat) (p : Nat × List Nat) : CollectedMatch :=
  ⟨p.1, (truncateLine mx (trimEndBytes p.2)).1, [], [],
    (truncateLine mx (trimEndBytes p.2)).2⟩

/-- The spec's end-to-end example tree: `a.ts` (no match), `b.ts` with
"foo" on line 3, `sub/node_modules/c.ts` with "foo" on line 1. -/
def exampleTree : List FsEntry :=
  [⟨["sub"], false, []⟩,
   ⟨["a.ts"], true, [asciiBytes "alpha"]⟩,
   ⟨["b.ts"], true, [asciiBytes "l1", asciiBytes "l2", asciiBytes "has foo here"]⟩,
   ⟨["sub", "node_modules"], false, []⟩,
   ⟨["sub", "node_modules", "c.ts"], true, [asciiBytes "foo in dep"]⟩]

/-! Section: theorems -/

/-! Section: Step lemmas for the match collector -/

theorem matched_stopped (c : MatchCollector) (i : Nat) (bytes : List Nat)
    (h : c.limitReached = true) :
    c.matched i bytes = ({ c with matchCount := c.matchCount + 1 }, false) := by
  simp [MatchCollector.matched, h]

theorem matched_skip (A : List CollectedMatch) (t cc : Nat) (mc : Option Nat)
    (k s : Nat) (cb : List ContextLine) (mx : Option Nat) (cm : Bool)
    (i : Nat) (bytes : List Nat) (h : s < k) :
    MatchCollector.matched ⟨A, t, cc, mc, k, s, false, cb, mx, cm⟩ i bytes =
      (⟨A, t + 1, cc, mc, k, s + 1, false, [], mx, cm⟩, true) := by
  simp [MatchCollector.matched, h]

theorem matched_collect_none (A : List CollectedMatch) (t cc : Nat)
    (k s : Nat) (cb : List ContextLine) (mx : Option Nat)
    (i : Nat) (bytes : List Nat) (h : k ≤ s) :
    MatchCollector.matched ⟨A, t, cc, none, k, s, false, cb, mx, true⟩ i bytes =
      (⟨A ++ [⟨i, (truncateLine mx (trimEndBytes bytes)).1, cb, [],
          (truncateLine mx (trimEndBytes bytes)).2⟩],
        t + 1, cc + 1, none, k, s, false, [], mx, true⟩, true) := by
  simp [MatchCollector.matched, Nat.not_lt.mpr h]

theorem matched_collect_some (A : List CollectedMatch) (t cc : Nat)
    (k s m : Nat) (cb : List ContextLine) (mx : Option Nat)
    (i : Nat) (bytes : List Nat) (h : k ≤ s) :
    MatchCollector.matched ⟨A, t, cc, some m, k, s, false, cb, mx, true⟩ i bytes =
      (⟨A ++ [⟨i, (truncateLine mx (trimEndBytes bytes)).1, cb, [],
          (truncateLine mx (trimEndBytes bytes)).2⟩],
        t + 1, cc + 1, some m, k, s, decide (m ≤ cc + 1), [], mx, true⟩, true) := by
  by_cases hm : m ≤ cc + 1 <;>
    simp [MatchCollector.matched, Nat.not_lt.mpr h, hm]

theorem context_before_step (A : List CollectedMatch) (t cc : Nat)
    (mc : Option Nat) (k s : Nat) (lim : Bool) (cb : List ContextLine)
    (mx : Option Nat) (i : Nat) (bytes : List Nat) :
    MatchCollector.context ⟨A, t, cc, mc, k, s, lim, cb, mx, true⟩ i bytes .before =
      ⟨A, t, cc, mc, k, s, lim,
        cb ++ [⟨clampU32 i, (truncateLine mx (trimEndBytes bytes)).1⟩], mx, true⟩ := by
  simp [MatchCollector.context]

theorem context_after_step (A : List CollectedMatch) (t cc : Nat)
    (mc : Option Nat) (k s : Nat) (lim : Bool) (cb : List ContextLine)
    (mx : Option Nat) (i : Nat) (bytes : List Nat) :
    MatchCollector.context ⟨A, t, cc, mc, k, s, lim, cb, mx, true⟩ i bytes .after =
      ⟨appendAfterToLast A ⟨clampU32 i, (truncateLine mx (trimEndBytes bytes)).1⟩,
        t, cc, mc, k, s, lim, cb, mx, true⟩ := by
  simp [MatchCollector.context]

theorem runEvents_cons_stop (c : MatchCollector) (i : Nat) (bytes : List Nat)
    (rest : List Event) (h : c.limitReached = true) :
    runEvents (Event.lineMatch i bytes :: rest) c =
      { c with matchCount := c.matchCount + 1 } := by
  simp [runEvents, matched_stopped _ _ _ h]

theorem runEvents_cons_skip (A : List CollectedMatch) (t cc : Nat)
    (mc : Option Nat) (k s : Nat) (cb : List ContextLine) (mx : Option Nat)
    (cm : Bool) (i : Nat) (bytes : List Nat) (rest : List Event) (h : s < k) :
    runEvents (Event.lineMatch i bytes :: rest)
        ⟨A, t, cc, mc, k, s, false, cb, mx, cm⟩ =
      runEvents rest ⟨A, t + 1, cc, mc, k, s + 1, false, [], mx, cm⟩ := by
  simp [runEvents, matched_skip _ _ _ _ _ _ _ _ _ _ _ h]

theorem runEvents_cons_collect_none (A : List CollectedMatch) (t cc : Nat)
    (k s : Nat) (cb : List ContextLine) (mx : Option Nat)
    (i : Nat) (bytes : List Nat) (rest : List Event) (h : k ≤ s) :
    runEvents (Event.lineMatch i bytes :: rest)
        ⟨A, t, cc, none, k, s, false, cb, mx, true⟩ =
      runEvents rest
        ⟨A ++ [⟨i, (truncateLine mx (trimEndBytes bytes)).1, cb, [],
            (truncateLine mx (trimEndBytes bytes)).2⟩],
          t + 1, cc + 1, none, k, s, false, [], mx, true⟩ := by
  simp [runEvents, matched_collect_none _ _ _ _ _ _ _ _ _ h]

theorem runEvents_cons_collect_some (A : List CollectedMatch) (t cc : Nat)
    (k s m : Nat) (cb : List ContextLine) (mx : Option Nat)
    (i : Nat) (bytes : List Nat) (rest : List Event) (h : k ≤ s) :
    runEvents (Event.lineMatch i bytes :: rest)
        ⟨A, t, cc, some m, k, s, false, cb, mx, true⟩ =
      runEvents rest
        ⟨A ++ [⟨i, (truncateLine mx (trimEndBytes bytes)).1, cb, [],
            (truncateLine mx (trimEndBytes bytes)).2⟩],
          t + 1, cc + 1, some m, k, s, decide (m ≤ cc + 1), [], mx, true⟩ := by
  simp [runEvents, matched_collect_some _ _ _ _ _ _ _ _ _ _ h]

theorem runEvents_cons_ctx_before (A : List CollectedMatch) (t cc : Nat)
    (mc : Option Nat) (k s : Nat) (lim : Bool) (cb : List ContextLine)
    (mx : Option Nat) (i : Nat) (bytes : List Nat) (rest : List Event) :
    runEvents (Event.lineContext i bytes .before :: rest)
        ⟨A, t, cc, mc, k, s, lim, cb, mx, true⟩ =
      runEvents rest
        ⟨A, t, cc, mc, k, s, lim,
          cb ++ [⟨clampU32 i, (truncateLine mx (trimEndBytes bytes)).1⟩], mx, true⟩ := by
  simp [runEvents, context_before_step]

theorem runEvents_cons_ctx_after (A : List CollectedMatch) (t cc : Nat)
    (mc : Option Nat) (k s : Nat) (lim : Bool) (cb : List ContextLine)
    (mx : Option Nat) (i : Nat) (bytes : List Nat) (rest : List Event) :
    runEvents (Event.lineContext i bytes .after :: rest)
        ⟨A, t, cc, mc, k, s, lim, cb, mx, true⟩ =
      runEvents rest
        ⟨appendAfterToLast A ⟨clampU32 i, (truncateLine mx (trimEndBytes bytes)).1⟩,
          t, cc, mc, k, s, lim, cb, mx, true⟩ := by
  simp [runEvents, context_after_step]

/-- Once the limit is reached, the next delivered match bumps the counter
and stops the search; nothing further is processed. -/
theorem runEvents_matchOnly_stopped (ms : List (Nat × List Nat))
    (c : MatchCollector) (h : c.limitReached = true) :
    runEvents (ms.map fun p => Event.lineMatch p.1 p.2) c =
      (match ms with
       | [] => c
       | _ :: _ => { c with matchCount := c.matchCount + 1 }) := by
  cases ms with
  | nil => simp [runEvents]
  | cons p ms => simp [runEvents_cons_stop _ _ _ _ h]

/-- With no before/after context configured, the searcher delivers exactly
one `matched` call per matching line, in order. -/
theorem genEvents_zero (pred : List Nat → Bool) :
    ∀ (ls : List (List Nat)) (i : Nat) (pending : List (Nat × List Nat)),
    genEvents pred 0 0 ls i pending 0 =
      ((List.enumFrom i ls).filter fun p => pred p.2).map
        fun p => Event.lineMatch p.1 p.2 := by
  intro ls
  induction ls with
  | nil => intro i pending; simp [genEvents]
  | cons l ls ih =>
    intro i pending
    by_cases h : pred l
    · simp [genEvents, h, lastN, List.enumFrom, ih]
    · simp [genEvents, h, List.enumFrom, ih]

/-- Running the collector over a stream of raw matches with no `maxCount`:
the first `offset` remaining skips are consumed, everything after is
collected, nothing stops the scan. -/
theorem runEvents_matchOnly_none (mx : Option Nat) :
    ∀ (ms : List (Nat × List Nat)) (A : List CollectedMatch) (t cc s k : Nat),
    s ≤ k →
    runEvents (ms.map fun p => Event.lineMatch p.1 p.2)
        ⟨A, t, cc, none, k, s, false, [], mx, true⟩ =
      ⟨A ++ (ms.drop (k - s)).map (collectedOf mx),
        t + ms.length, cc + (ms.length - (k - s)), none, k,
        s + min ms.length (k - s), false, [], mx, true⟩ := by
  intro ms
  induction ms with
  | nil => intro A t cc s k hsk; simp [runEvents]
  | cons p ms ih =>
    intro A t cc s k hsk
    by_cases h : s < k
    · rw [List.map_cons, runEvents_cons_skip _ _ _ _ _ _ _ _ _ _ _ _ h,
        ih A (t + 1) cc (s + 1) k h]
      have hks : k - s = (k - (s + 1)) + 1 := by omega
      rw [hks, List.drop_succ_cons]
      simp only [List.length_cons, MatchCollector.mk.injEq, true_and, and_true]
      omega
    · have hk : k ≤ s := Nat.not_lt.mp h
      rw [List.map_cons, runEvents_cons_collect_none _ _ _ _ _ _ _ _ _ _ hk,
        ih _ (t + 1) (cc + 1) s k hsk]
      have hks : k - s = 0 := by omega
      rw [hks, List.drop_zero, List.drop_zero]
      simp only [List.length_cons, List.map_cons, MatchCollector.mk.injEq,
        collectedOf, List.append_assoc, List.singleton_append, true_and, and_true]
      omega

/-- Running the collector over a stream of raw matches with
`maxCount = some m` and `cc` matches already collected: skips are consumed,
then `max m 1 - cc` further matches are collected, then one more raw match
is counted before the scan stops. -/
theorem runEvents_matchOnly_some (mx : Option Nat) :
    ∀ (ms : List (Nat × List Nat)) (A : List CollectedMatch) (t cc s k m : Nat),
    s ≤ k → cc < max m 1 →
    runEvents (ms.map fun p => Event.lineMatch p.1 p.2)
        ⟨A, t, cc, some m, k, s, false, [], mx, true⟩ =
      ⟨A ++ ((ms.drop (k - s)).take (max m 1 - cc)).map (collectedOf mx),
        t + min ms.length ((k - s) + (max m 1 - cc) + 1),
        cc + min (max m 1 - cc) (ms.length - (k - s)),
        some m, k,
        s + min ms.length (k - s),
        decide ((k - s) + (max m 1 - cc) ≤ ms.length),
        [], mx, true⟩ := by
  intro ms
  induction ms with
  | nil =>
    intro A t cc s k m hsk hcc
    simp only [List.map_nil, runEvents, List.drop_nil, List.take_nil,
      List.map_nil, List.append_nil, List.length_nil, MatchCollector.mk.injEq,
      true_and, and_true, @eq_comm Bool false, @eq_comm Bool true,
      decide_eq_false_iff_not, decide_eq_true_eq]
    omega
  | cons p ms ih =>
    intro A t cc s k m hsk hcc
    by_cases h : s < k
    · rw [List.map_cons, runEvents_cons_skip _ _ _ _ _ _ _ _ _ _ _ _ h,
        ih A (t + 1) cc (s + 1) k m h hcc]
      have hks : k - s = (k - (s + 1)) + 1 := by omega
      rw [hks, List.drop_succ_cons]
      simp only [List.length_cons, MatchCollector.mk.injEq, true_and, and_true,
        decide_eq_decide]
      omega
    · have hk : k ≤ s := Nat.not_lt.mp h
      rw [List.map_cons, runEvents_cons_collect_some _ _ _ _ _ _ _ _ _ _ _ hk]
      by_cases hm : m ≤ cc + 1
      · -- the collected match trips the limit; the next raw match (if any)
        -- is counted and stops the search
        have hd : decide (m ≤ cc + 1) = true := by simp [hm]
        rw [hd, runEvents_matchOnly_stopped ms _ rfl]
        have hB : max m 1 - cc = 1 := by omega
        have hks : k - s = 0 := by omega
        cases ms with
        | nil =>
          rw [hB, hks, List.drop_zero]
          simp only [List.length_cons, List.length_nil, List.take_succ_cons,
            List.take_nil, List.map_cons, List.map_nil, MatchCollector.mk.injEq,
            collectedOf, List.append_assoc, List.singleton_append, true_and,
            and_true, @eq_comm Bool false, @eq_comm Bool true,
            decide_eq_false_iff_not, decide_eq_true_eq]
          omega
        | cons q qs =>
          rw [hB, hks, List.drop_zero]
          simp only [List.length_cons, List.take_succ_cons, List.take_zero,
            List.map_cons, List.map_nil, MatchCollector.mk.injEq, collectedOf,
            List.append_assoc, List.singleton_append, List.append_nil, true_and,
            and_true, @eq_comm Bool false, @eq_comm Bool true,
            decide_eq_false_iff_not, decide_eq_true_eq]
          omega
      · have hd : decide (m ≤ cc + 1) = false := by simp [hm]
        rw [hd, ih _ (t + 1) (cc + 1) s k m hsk (by omega)]
        have hks : k - s = 0 := by omega
        have hB : max m 1 - cc = (max m 1 - (cc + 1)) + 1 := by omega
        rw [hks, hB, List.drop_zero, List.drop_zero, List.take_succ_cons]
        simp only [List.length_cons, List.map_cons, MatchCollector.mk.injEq,
          collectedOf, List.append_assoc, List.singleton_append, true_and,
          and_true, decide_eq_decide]
        omega


/-- Closed form of a single-content search with no context and no
`maxCount`: offset skips, everything else collected, scan never stops. -/
theorem runSearchReader_matchOnly_none (pred : List Nat → Bool)
    (content : List (List Nat)) (k : Nat) (mx : Option Nat) :
    runSearchReader pred content ⟨0, 0, mx, .content, none, k⟩ =
      ⟨((rawMatches pred content).drop k).map (collectedOf mx),
        (rawMatches pred content).length,
        (rawMatches pred content).length - k, false⟩ := by
  unfold runSearchReader MatchCollector.new
  simp only [reduceIte, decide_True, genEvents_zero]
  rw [runEvents_matchOnly_none mx _ [] 0 0 0 k (Nat.zero_le k)]
  simp [rawMatches]

/-- Closed form of a single-content search with no context and
`maxCount = some m`: after the offset skips, `max m 1` matches are
collected; one further raw match is counted before the scan stops. -/
theorem runSearchReader_matchOnly_some (pred : List Nat → Bool)
    (content : List (List Nat)) (k m : Nat) (mx : Option Nat) :
    runSearchReader pred content ⟨0, 0, mx, .content, some m, k⟩ =
      ⟨(((rawMatches pred content).drop k).take (max m 1)).map (collectedOf mx),
        min (rawMatches pred content).length (k + max m 1 + 1),
        min (max m 1) ((rawMatches pred content).length - k),
        decide (k + max m 1 ≤ (rawMatches pred content).length)⟩ := by
  unfold runSearchReader MatchCollector.new
  simp only [reduceIte, decide_True, genEvents_zero]
  rw [runEvents_matchOnly_some mx _ [] 0 0 0 k m (Nat.zero_le k) (by omega)]
  simp only [rawMatches, Nat.sub_zero, Nat.zero_add, Nat.add_zero,
    SearchResultInternal.mk.injEq, List.nil_append, true_and, and_true,
    decide_eq_decide]

theorem searchSync_window_none (pred : List Nat → Bool)
    (content : List (List Nat)) (k : Nat) :
    searchSync (.ok pred) content { maxCount := none, offset := some k } =
      ⟨((rawMatches pred content).drop k).map
          (fun p => toPublicMatch (collectedOf none p)),
        clampU32 (rawMatches pred content).length, false, none⟩ := by
  unfold searchSync
  simp only [parseOutputMode, resolveContext, Option.isSome_none, Bool.or_self,
    Bool.false_eq_true, if_false, Option.getD_none]
  rw [runSearchReader_matchOnly_none]
  simp [List.map_map]
  rfl

theorem searchSync_window_some (pred : List Nat → Bool)
    (content : List (List Nat)) (k m : Nat) :
    searchSync (.ok pred) content { maxCount := some m, offset := some k } =
      ⟨(((rawMatches pred content).drop k).take (max m 1)).map
          (fun p => toPublicMatch (collectedOf none p)),
        clampU32 (min (rawMatches pred content).length (k + max m 1 + 1)),
        decide (k + max m 1 ≤ (rawMatches pred content).length), none⟩ := by
  unfold searchSync
  simp only [parseOutputMode, resolveContext, Option.isSome_none, Bool.or_self,
    Bool.false_eq_true, if_false, Option.getD_none]
  rw [runSearchReader_matchOnly_some]
  simp [List.map_map]
  rfl

/-- C3 (corrected).  For every content and pattern with `N` raw
matches, a single-content search with `offset = k` and `maxCount = m`
returns precisely raw matches `k+1 .. k+max(m,1)` in their original order
of occurrence — exactly `min(max(m,1), N − k)` collected matches.  (The
original claim's `min(m, N − k)` fails at `m = 0`, where the first
unskipped match is still collected; see the counterexample.) -/
theorem C3_offset_limit_window (pred : List Nat → Bool)
    (content : List (List Nat)) (k m : Nat) :
    (searchSync (.ok pred) content
        { maxCount := some m, offset := some k }).matchesList =
      (((rawMatches pred content).drop k).take (max m 1)).map
        (fun p => toPublicMatch (collectedOf none p)) ∧
    (searchSync (.ok pred) content
        { maxCount := some m, offset := some k }).matchesList.length =
      min (max m 1) ((rawMatches pred content).length - k) := by
  rw [searchSync_window_some]
  exact ⟨rfl, by simp [Nat.min_comm]⟩

/-- C3 counterexample: with one raw match, `offset = 0` and
`maxCount = 0`, the claimed count `min(0, 1 − 0) = 0` is wrong — the
search still collects one match. -/
theorem C3_counterexample :
    (searchSync (.ok (litMatcher "foo")) [asciiBytes "a foo line"]
        { maxCount := some 0, offset := some 0 }).matchesList.length = 1 ∧
    (rawMatches (litMatcher "foo") [asciiBytes "a foo line"]).length = 1 := by
  decide

/-- C4 (corrected).  `matchCount` equals the number of raw matches
examined before scanning stops: the full raw count `N` when `maxCount` is
unset, but only `min(N, offset + max(maxCount,1) + 1)` when `maxCount` is
set — the scan stops early instead of counting the remaining raw
matches. -/
theorem C4_match_count_total (pred : List Nat → Bool)
    (content : List (List Nat)) (k : Nat) :
    (searchSync (.ok pred) content
        { maxCount := none, offset := some k }).matchCount =
      clampU32 (rawMatches pred content).length ∧
    ∀ m : Nat,
      (searchSync (.ok pred) content
          { maxCount := some m, offset := some k }).matchCount =
        clampU32 (min (rawMatches pred content).length (k + max m 1 + 1)) := by
  constructor
  · rw [searchSync_window_none]
  · intro m
    rw [searchSync_window_some]

/-- C4 counterexample: three raw matches, `maxCount = 1`: the reported
`matchCount` is `2`, not the total raw count `3`. -/
theorem C4_counterexample :
    (searchSync (.ok (litMatcher "foo"))
        [asciiBytes "foo a", asciiBytes "foo b", asciiBytes "foo c"]
        { maxCount := some 1 }).matchCount = 2 ∧
    (rawMatches (litMatcher "foo")
        [asciiBytes "foo a", asciiBytes "foo b", asciiBytes "foo c"]).length = 3 := by
  decide

/-- Dropping from an enumerated list re-enumerates the dropped suffix. -/
theorem enumFrom_drop_eq (n : Nat) :
    ∀ (i : Nat) (xs : List α),
    (List.enumFrom i xs).drop n = List.enumFrom (i + n) (xs.drop n) := by
  induction n with
  | zero => intro i xs; simp
  | succ t ih =>
    intro i xs
    cases xs with
    | nil => simp
    | cons x xs =>
      simp only [List.enumFrom, List.drop_succ_cons, ih (i + 1) xs]
      congr 1
      omega

/-- The searcher buffers a run of non-matching lines (no after-context
pending) as before-context candidates. -/
theorem genEvents_nonmatching (pred : List Nat → Bool) (b a : Nat) :
    ∀ (xs rest : List (List Nat)) (i : Nat) (pending : List (Nat × List Nat)),
    (∀ l ∈ xs, pred l = false) →
    genEvents pred b a (xs ++ rest) i pending 0 =
      genEvents pred b a rest (i + xs.length) (pending ++ List.enumFrom i xs) 0 := by
  intro xs
  induction xs with
  | nil => intro rest i pending _; simp
  | cons x xs ih =>
    intro rest i pending hall
    have hx : pred x = false := hall x (List.mem_cons_self x xs)
    simp only [List.cons_append, genEvents, hx, Bool.false_eq_true, if_false,
      Nat.lt_irrefl, List.enumFrom, List.append_eq]
    rw [ih rest (i + 1) (pending ++ [(i, x)]) fun l hl => hall l (List.mem_cons_of_mem x hl)]
    simp only [List.append_assoc, List.singleton_append, List.length_cons]
    congr 1
    omega

/-- After a match, a run of non-matching lines yields exactly the owed
after-context events and then nothing. -/
theorem genEvents_afterPhase (pred : List Nat → Bool) (b a : Nat) :
    ∀ (ys : List (List Nat)) (j ar : Nat) (pending : List (Nat × List Nat)),
    (∀ l ∈ ys, pred l = false) →
    genEvents pred b a ys j pending ar =
      (List.enumFrom j (ys.take ar)).map
        fun p => Event.lineContext p.1 p.2 .after := by
  intro ys
  induction ys with
  | nil => intro j ar pending _; simp [genEvents]
  | cons y ys ih =>
    intro j ar pending hall
    have hy : pred y = false := hall y (List.mem_cons_self y ys)
    have htl : ∀ l ∈ ys, pred l = false := fun l hl => hall l (List.mem_cons_of_mem y hl)
    cases ar with
    | zero =>
      simp only [genEvents, hy, Bool.false_eq_true, if_false, Nat.lt_irrefl,
        List.take_zero, List.enumFrom_nil, List.map_nil]
      rw [ih (j + 1) 0 (pending ++ [(j, y)]) htl]
      simp
    | succ t =>
      simp only [genEvents, hy, Bool.false_eq_true, if_false, Nat.succ_sub_one,
        Nat.zero_lt_succ, if_true, List.take_succ_cons, List.enumFrom, List.map_cons]
      rw [ih (j + 1) t pending htl]

/-- Driving a run of before-context events extends the pending buffer. -/
theorem runEvents_ctx_before_list (mx : Option Nat) :
    ∀ (cls : List (Nat × List Nat)) (rest : List Event)
      (A : List CollectedMatch) (t cc : Nat) (mc : Option Nat) (k s : Nat)
      (lim : Bool) (cb : List ContextLine),
    runEvents ((cls.map fun p => Event.lineContext p.1 p.2 .before) ++ rest)
        ⟨A, t, cc, mc, k, s, lim, cb, mx, true⟩ =
      runEvents rest
        ⟨A, t, cc, mc, k, s, lim,
          cb ++ cls.map (fun p => ⟨clampU32 p.1, (truncateLine mx (trimEndBytes p.2)).1⟩),
          mx, true⟩ := by
  intro cls
  induction cls with
  | nil => intro rest A t cc mc k s lim cb; simp
  | cons p cls ih =>
    intro rest A t cc mc k s lim cb
    simp only [List.map_cons, List.cons_append, runEvents_cons_ctx_before]
    rw [ih rest A t cc mc k s lim _]
    simp

/-- Driving a run of after-context events over a single collected match
appends them to that match. -/
theorem runEvents_ctx_after_single (mx : Option Nat) :
    ∀ (cls : List (Nat × List Nat)) (rec : CollectedMatch) (t cc : Nat)
      (mc : Option Nat) (k s : Nat) (lim : Bool) (cb : List ContextLine),
    runEvents (cls.map fun p => Event.lineContext p.1 p.2 .after)
        ⟨[rec], t, cc, mc, k, s, lim, cb, mx, true⟩ =
      ⟨[{ rec with contextAfter := rec.contextAfter ++
            cls.map fun p => ⟨clampU32 p.1, (truncateLine mx (trimEndBytes p.2)).1⟩ }],
        t, cc, mc, k, s, lim, cb, mx, true⟩ := by
  intro cls
  induction cls with
  | nil => intro rec t cc mc k s lim cb; simp [runEvents]
  | cons p cls ih =>
    intro rec t cc mc k s lim cb
    simp only [List.map_cons, runEvents_cons_ctx_after, appendAfterToLast]
    rw [ih _ t cc mc k s lim cb]
    simp


/-- C8 (confirmed).  In content mode with `contextBefore = b` and
`contextAfter = a`, a match on line `L = |xs| + 1` of `xs ++ [m] ++ ys`
(no other matching line, no offset, any `maxCount` — including one that is
reached by this match) carries exactly the `b` lines `L-b .. L-1` as
before-context and exactly the `a` lines `L+1 .. L+a` as after-context. -/
theorem C8_context_symmetry (pred : List Nat → Bool) (xs ys : List (List Nat))
    (mEl : List Nat) (b a : Nat) (mc : Option Nat)
    (hxs : ∀ l ∈ xs, pred l = false) (hys : ∀ l ∈ ys, pred l = false)
    (hm : pred mEl = true) (hb : b ≤ xs.length) (ha : a ≤ ys.length) :
    (searchSync (.ok pred) (xs ++ mEl :: ys)
        { contextBefore := some b, contextAfter := some a,
          maxCount := mc }).matchesList =
      [{ lineNumber := clampU32 (xs.length + 1),
         line := trimEndBytes mEl,
         contextBefore := listToOpt
           ((List.enumFrom (xs.length + 1 - b) (xs.drop (xs.length - b))).map
             fun p => ⟨clampU32 p.1, trimEndBytes p.2⟩),
         contextAfter := listToOpt
           ((List.enumFrom (xs.length + 2) (ys.take a)).map
             fun p => ⟨clampU32 p.1, trimEndBytes p.2⟩),
         truncated := none }] ∧
    (xs.drop (xs.length - b)).length = b ∧ (ys.take a).length = a := by
  refine ⟨?_, by simp; omega, by simp; omega⟩
  unfold searchSync
  simp only [parseOutputMode, resolveContext, Option.isSome_some, Bool.true_or,
    if_true, Option.getD_some, Option.getD_none, runSearchReader, reduceIte,
    decide_True, MatchCollector.new]
  rw [genEvents_nonmatching pred b a xs (mEl :: ys) 1 [] hxs]
  simp only [genEvents, hm, if_true, List.nil_append]
  rw [genEvents_afterPhase pred b a ys (1 + xs.length + 1) a [] hys]
  simp only [lastN, List.enumFrom_length]
  rw [enumFrom_drop_eq (xs.length - b) 1 xs]
  have e1 : 1 + (xs.length - b) = xs.length + 1 - b := by omega
  have e2 : 1 + xs.length + 1 = xs.length + 2 := by omega
  have e3 : 1 + xs.length = xs.length + 1 := by omega
  rw [e1, e2, e3]
  rw [runEvents_ctx_before_list]
  cases mc with
  | none =>
    rw [runEvents_cons_collect_none _ _ _ _ _ _ _ _ _ _ (Nat.le_refl 0)]
    simp only [List.nil_append]
    rw [runEvents_ctx_after_single]
    simp [toPublicMatch, truncateLine]
  | some m =>
    rw [runEvents_cons_collect_some _ _ _ _ _ _ _ _ _ _ _ (Nat.le_refl 0)]
    simp only [List.nil_append]
    rw [runEvents_ctx_after_single]
    simp [toPublicMatch, truncateLine]

/-- Witness for C8: two before-lines, one after-line, `maxCount = 1`
reached at the match. -/
theorem C8_context_symmetry_witness :
    (searchSync (.ok (litMatcher "hit"))
        [asciiBytes "l1", asciiBytes "l2", asciiBytes "a hit", asciiBytes "l4"]
        { contextBefore := some 2, contextAfter := some 1,
          maxCount := some 1 }).matchesList =
      [{ lineNumber := clampU32 3,
         line := trimEndBytes (asciiBytes "a hit"),
         contextBefore := listToOpt
           ((List.enumFrom 1 [asciiBytes "l1", asciiBytes "l2"]).map
             fun p => ⟨clampU32 p.1, trimEndBytes p.2⟩),
         contextAfter := listToOpt
           ((List.enumFrom 4 [asciiBytes "l4"]).map
             fun p => ⟨clampU32 p.1, trimEndBytes p.2⟩),
         truncated := none }] := by
  have h := C8_context_symmetry (litMatcher "hit")
    [asciiBytes "l1", asciiBytes "l2"] [asciiBytes "l4"] (asciiBytes "a hit")
    2 1 (some 1) (by decide) (by decide) (by decide) (by decide) (by decide)
  simpa using h.1


/-- Model of `appendAfterToLast` only touches `contextAfter`: the truncated flags of
the collected matches are unchanged. -/
theorem appendAfterToLast_truncated (cl : ContextLine) :
    ∀ (ms : List CollectedMatch),
    ((appendAfterToLast ms cl).map fun m => m.truncated) =
      ms.map fun m => m.truncated := by
  intro ms
  induction ms with
  | nil => rfl
  | cons m rest ih =>
    cases rest with
    | nil => simp [appendAfterToLast]
    | cons m2 rest2 => simp [appendAfterToLast, ih]

/-- C7 (corrected).  A matched or context line whose byte length
exceeds `maxColumns` is cut at the floor character boundary of
`maxColumns - 3` with an ASCII ellipsis appended, and is returned
unmodified otherwise; but the record's truncated flag reflects only the
matched line — `Sink::context` truncates the stored text of long context
lines without ever setting any record's flag (the original claim required
the flag for context lines too; see the counterexample). -/
theorem C7_truncation (mx : Nat) (line : List Nat) :
    (mx < line.length →
      truncateLine (some mx) line =
        (line.take (floorCharBoundary line (mx - 3)) ++ asciiBytes "...", true)) ∧
    (line.length ≤ mx → truncateLine (some mx) line = (line, false)) ∧
    (∀ (c : MatchCollector) (i : Nat) (kind : CtxKind),
      ((c.context i line kind).matchesList.map fun m => m.truncated) =
        c.matchesList.map fun m => m.truncated) ∧
    (∀ (A : List CollectedMatch) (t cc k s : Nat) (cb : List ContextLine)
       (i : Nat), k ≤ s →
      (MatchCollector.matched ⟨A, t, cc, none, k, s, false, cb, some mx, true⟩
          i line).1.matchesList =
        A ++ [⟨i, (truncateLine (some mx) (trimEndBytes line)).1, cb, [],
          (truncateLine (some mx) (trimEndBytes line)).2⟩]) := by
  refine ⟨fun h => by simp [truncateLine, h], fun h => by simp [truncateLine, Nat.not_lt.mpr h], ?_, ?_⟩
  · intro c i kind
    unfold MatchCollector.context
    by_cases hcm : c.collectMatches
    · cases kind <;> simp [hcm, appendAfterToLast_truncated]
    · simp [hcm]
  · intro A t cc k s cb i hks
    rw [matched_collect_none _ _ _ _ _ _ _ _ _ hks]

/-- Witness for C7: a 20-byte ASCII line against `maxColumns = 10` is cut
at byte 7 with an ellipsis; a 2-byte line is untouched; the matched-line
record carries the flag. -/
theorem C7_truncation_witness :
    (10 < (asciiBytes "aaaaaaaaaaaaaaaaaaaa").length ∧
      truncateLine (some 10) (asciiBytes "aaaaaaaaaaaaaaaaaaaa") =
        ((asciiBytes "aaaaaaaaaaaaaaaaaaaa").take
            (floorCharBoundary (asciiBytes "aaaaaaaaaaaaaaaaaaaa") (10 - 3)) ++
          asciiBytes "...", true)) ∧
    ((asciiBytes "hi").length ≤ 10 ∧
      truncateLine (some 10) (asciiBytes "hi") = (asciiBytes "hi", false)) ∧
    (MatchCollector.matched ⟨[], 0, 0, none, 0, 0, false, [], some 10, true⟩
        1 (asciiBytes "aaaaaaaaaaaaaaaaaaaa")).1.matchesList =
      [⟨1, (truncateLine (some 10) (trimEndBytes (asciiBytes "aaaaaaaaaaaaaaaaaaaa"))).1,
        [], [], (truncateLine (some 10) (trimEndBytes (asciiBytes "aaaaaaaaaaaaaaaaaaaa"))).2⟩] :=
  ⟨⟨by decide, (C7_truncation 10 (asciiBytes "aaaaaaaaaaaaaaaaaaaa")).1 (by decide)⟩,
   ⟨by decide, (C7_truncation 10 (asciiBytes "hi")).2.1 (by decide)⟩,
   by
     have h := (C7_truncation 10 (asciiBytes "aaaaaaaaaaaaaaaaaaaa")).2.2.2
       [] 0 0 0 0 [] 1 (Nat.le_refl 0)
     simpa using h⟩

/-- C7 counterexample: a context line longer than `maxColumns` is
stored truncated (with the ellipsis), yet the match record's truncated
flag is not set — the claim required it to be set for context lines as
well. -/
theorem C7_counterexample :
    ((searchSync (.ok (litMatcher "hit"))
        [asciiBytes "aaaaaaaaaaaaaaaaaaaa", asciiBytes "hit"]
        { contextBefore := some 1, maxColumns := some 10 }).matchesList.map
      fun mm => (mm.contextBefore, mm.truncated)) =
      [(some [⟨1, asciiBytes "aaaaaaa..."⟩], none)] ∧
    10 < (asciiBytes "aaaaaaaaaaaaaaaaaaaa").length := by
  decide

/-- A subsequence score never exceeds 40 (before tier offsets). -/
theorem fuzzySubsequenceScore_le_40 (query target : String) :
    fuzzySubsequenceScore query target ≤ 40 := by
  unfold fuzzySubsequenceScore
  dsimp only
  split
  · omega
  · split
    · omega
    · omega

/-- C5 (corrected).  An entry whose final name segment equals the
query (case-insensitively) scores at least 120 and strictly outranks every
entry whose name does not — in particular every mere-containment entry;
among subsequence matches fewer non-adjacent jumps score higher
(`score("ab","abc") > score("ab","axbc")`).  But containment does not
always outrank subsequence-only matches: the name-subsequence tier reaches
`50 + 40 (+10)`, above containment's `80 (+10)`; see the counterexample. -/
theorem C5_tier_order :
    (∀ (p1 p2 : String) (d1 d2 : Bool) (q nq : String),
      q ≠ "" →
      asciiLowerStr (rustFileName (trimEndSlashes p1)) = q →
      asciiLowerStr (rustFileName (trimEndSlashes p2)) ≠ q →
      scoreFuzzyPath p2 d2 q nq < scoreFuzzyPath p1 d1 q nq) ∧
    scoreFuzzyPath "abc" false "ab" (normalizeFuzzyText "ab") >
      scoreFuzzyPath "axbc" false "ab" (normalizeFuzzyText "ab") ∧
    fuzzySubsequenceScore "ab" "abc" > fuzzySubsequenceScore "ab" "axbc" := by
  refine ⟨?_, by decide, by decide⟩
  intro p1 p2 d1 d2 q nq hq h1 h2
  have hs1 : 120 ≤ scoreFuzzyPath p1 d1 q nq := by
    unfold scoreFuzzyPath
    dsimp only
    rw [if_neg hq, if_pos h1]
    split <;> omega
  have hs2 : scoreFuzzyPath p2 d2 q nq ≤ 110 := by
    have hf1 := fuzzySubsequenceScore_le_40 nq
      (normalizeFuzzyText (rustFileName (trimEndSlashes p2)))
    have hf2 := fuzzySubsequenceScore_le_40 nq (normalizeFuzzyText p2)
    unfold scoreFuzzyPath
    dsimp only
    rw [if_neg hq, if_neg h2]
    split_ifs <;> omega
  omega

/-- Witness for C5: exact name "ab" (120) against containment "xaby"
(80). -/
theorem C5_tier_order_witness :
    ("ab" ≠ "" ∧
      asciiLowerStr (rustFileName (trimEndSlashes "ab")) = "ab" ∧
      asciiLowerStr (rustFileName (trimEndSlashes "xaby")) ≠ "ab") ∧
    scoreFuzzyPath "xaby" false "ab" "ab" < scoreFuzzyPath "ab" false "ab" "ab" :=
  ⟨⟨by decide, by decide, by decide⟩,
    C5_tier_order.1 "ab" "xaby" false false "ab" "ab" (by decide) (by decide)
      (by decide)⟩

/-- C5 counterexample: with query "ab", the file "xaby" (name contains
the query: tier 80) scores below the file "a_b", which matches only by
normalized subsequence (tier 50 + 40 = 90) — containment does not strictly
outrank subsequence-only matches. -/
theorem C5_counterexample :
    scoreFuzzyPath "xaby" false "ab" (normalizeFuzzyText "ab") = 80 ∧
    scoreFuzzyPath "a_b" false "ab" (normalizeFuzzyText "ab") = 90 ∧
    scoreFuzzyPath "xaby" false "ab" (normalizeFuzzyText "ab") <
      scoreFuzzyPath "a_b" false "ab" (normalizeFuzzyText "ab") := by
  decide

theorem mem_insertBy (lt : α → α → Bool) (x y : α) :
    ∀ (l : List α), y ∈ insertBy lt x l ↔ y = x ∨ y ∈ l := by
  intro l
  induction l with
  | nil => simp [insertBy]
  | cons z l ih =>
    unfold insertBy
    split
    · simp
    · simp only [List.mem_cons, ih]
      tauto

/-- A stable insertion sort permutes its input: membership is preserved. -/
theorem mem_stableSortBy (lt : α → α → Bool) (y : α) (l : List α) :
    y ∈ stableSortBy lt l ↔ y ∈ l := by
  have aux : ∀ (l acc : List α),
      (y ∈ l.foldl (fun acc x => insertBy lt x acc) acc) ↔ (y ∈ acc ∨ y ∈ l) := by
    intro l
    induction l with
    | nil => simp
    | cons x l ih =>
      intro acc
      simp only [List.foldl_cons, ih, mem_insertBy, List.mem_cons]
      tauto
  simpa [stableSortBy] using aux l []

/-- With an empty lowered query, the score is 1 plus the directory bonus. -/
theorem scoreFuzzyPath_empty_query (p : String) (d : Bool) (nq : String) :
    scoreFuzzyPath p d "" nq = if d then 11 else 1 := by
  unfold scoreFuzzyPath
  dsimp only
  rw [if_pos rfl]
  cases d <;> simp

/-- C6 (corrected).  For an empty (or whitespace-only) fuzzy query,
every non-symlink file receives score 1, but every directory receives
score 11: the `+10` directory bonus is applied even to the empty-query
base score (the original claim said every entry scores exactly 1; see the
counterexample). -/
theorem C6_empty_query_scores (entries : List GlobMatchM) (query : String)
    (maxResults : Nat) (hq : rustTrim query = "") :
    ∀ mm ∈ (fuzzyFindSync entries query maxResults).matchesList,
      mm.score = if mm.isDirectory then 11 else 1 := by
  intro mm hmm
  by_cases hmr : maxResults = 0
  · simp [fuzzyFindSync, hmr] at hmm
  · have heq : fuzzyFindSync entries query maxResults =
        ⟨(stableSortBy fuzzyLtComparator (fuzzyScoredEntries entries "" "")).take
            maxResults,
          clampU32 (fuzzyScoredEntries entries "" "").length⟩ := by
      unfold fuzzyFindSync
      rw [hq]
      have h1 : asciiLowerStr "" = "" := rfl
      have h2 : normalizeFuzzyText "" = "" := rfl
      simp [hmr, h1, h2]
    rw [heq] at hmm
    have hmem : mm ∈ fuzzyScoredEntries entries "" "" :=
      (mem_stableSortBy _ _ _).mp (List.mem_of_mem_take hmm)
    unfold fuzzyScoredEntries at hmem
    obtain ⟨entry, hentry, hf⟩ := List.mem_filterMap.mp hmem
    by_cases hsym : entry.fileType = .symlink
    · simp [hsym] at hf
    · by_cases hdir : entry.fileType = FileType.dir
      · simp [hsym, hdir, scoreFuzzyPath_empty_query] at hf
        subst hf
        simp
      · simp [hsym, hdir, scoreFuzzyPath_empty_query] at hf
        subst hf
        simp

/-- Witness for C6: a whitespace-only query over one file and one
directory. -/
theorem C6_empty_query_scores_witness :
    rustTrim "  " = "" ∧
    ∀ mm ∈ (fuzzyFindSync [⟨"f", .file, none⟩, ⟨"d", .dir, none⟩] "  "
        100).matchesList,
      mm.score = if mm.isDirectory then 11 else 1 :=
  ⟨by decide, C6_empty_query_scores _ _ _ (by decide)⟩

/-- C6 counterexample: with an empty query, a directory entry receives
score 11, not 1. -/
theorem C6_counterexample :
    (fuzzyFindSync [⟨"d", .dir, none⟩] "" 100).matchesList =
      [⟨"d/", true, 11⟩] := by
  decide

/-- C9 (confirmed).  For every failed pattern construction, the
single-content search returns a well-formed `SearchResult` carrying the
failure description in its `error` field, with empty matches,
`matchCount = 0` and `limitReached = false` — it does not throw. -/
theorem C9_error_as_field (e : String) (content : List (List Nat))
    (options : SearchOptions) :
    searchSync (.error e) content options = emptySearchResult (some e) ∧
    emptySearchResult (some e) =
      { matchesList := [], matchCount := 0, limitReached := false,
        error := some e } :=
  ⟨rfl, rfl⟩

/-- C2 (code bug).  A custom type filter is meant to match a file
whose name or extension equals the filter string case-insensitively, but
`TypeFilter::Custom`'s extension arm compares the stored filter string
with itself (the pattern binding shadows the candidate extension), so any
file with a non-empty extension passes: "a.zz" passes the filter "foo"
although neither its name nor its extension equals "foo". -/
theorem C2_custom_filter_eval :
    resolveTypeFilter (some "foo") = some (TypeFilter.custom "foo") ∧
    matchesTypeFilter ["a.zz"] (TypeFilter.custom "foo") = true ∧
    eqIgnoreAsciiCase "a.zz" "foo" = false ∧
    eqIgnoreAsciiCase "zz" "foo" = false ∧
    rustExtension "a.zz" = some "zz" ∧
    TypeFilter.matchExt (TypeFilter.custom "foo") "zz" = true := by
  decide

/-- C1 counterexample: on the spec's example tree, `grep("foo", root)`
(no glob, no type filter, default options) searches the `node_modules`
file and returns two matches — `b.ts:3` and `sub/node_modules/c.ts:1`
— not the single match the claim requires. -/
theorem C1_counterexample :
    (grepSyncDir exampleTree (litMatcher "foo") none none {}).totalMatches = 2 ∧
    ((grepSyncDir exampleTree (litMatcher "foo") none none {}).matchesList.map
      fun mm => (mm.path, mm.lineNumber)) =
      [("b.ts", 3), ("sub/node_modules/c.ts", 1)] := by
  decide

/-- C1 (corrected).  grep's file collection prunes only `.git`
segments: every walker-produced regular file without a `.git` segment that
passes the glob and type filters is searched — including files under
`node_modules`, which grep (unlike glob) does not exclude. -/
theorem C1_collect_includes (es : List FsEntry)
    (g : Option (List String → Bool)) (t : Option TypeFilter) (e : FsEntry)
    (hmem : e ∈ es) (hfile : e.isFile = true)
    (hgit : hasSegment e.path ".git" = false)
    (hglob : globAllows g e.path = true)
    (htype : typeAllows t e.path = true) :
    joinPath e.path ∈ (collectFiles es g t).map fun fe => fe.relativePath := by
  unfold collectFiles
  rw [List.map_map]
  refine List.mem_map.mpr ⟨e, ?_, rfl⟩
  refine List.mem_filter.mpr ⟨(mem_stableSortBy _ _ _).mpr hmem, ?_⟩
  simp [hfile, hgit, hglob, htype]

/-- Witness for C1: the `node_modules` file of the example tree is in the
collected search set. -/
theorem C1_collect_includes_witness :
    ((⟨["sub", "node_modules", "c.ts"], true, [asciiBytes "foo in dep"]⟩ : FsEntry)
        ∈ exampleTree ∧
      hasSegment ["sub", "node_modules", "c.ts"] ".git" = false) ∧
    joinPath ["sub", "node_modules", "c.ts"] ∈
      (collectFiles exampleTree none none).map fun fe => fe.relativePath :=
  ⟨⟨by decide, by decide⟩,
    C1_collect_includes exampleTree none none
      ⟨["sub", "node_modules", "c.ts"], true, [asciiBytes "foo in dep"]⟩
      (by decide) (by decide) (by decide) (by decide) (by decide)⟩

/-- C10 (confirmed).  glob's `totalMatches` is the (clamped) length of
the returned `matches` — counted after `maxResults` truncation — while
fuzzyFind's `totalMatches` is the (clamped) number of all scored entries
before truncation; concretely, over two matching entries with a limit
of 1, glob reports `totalMatches = 1` but fuzzyFind reports
`totalMatches = 2` with one returned match. -/
theorem C10_total_matches :
    (∀ (entries : List GlobMatchM) (globPred : String → Bool)
       (ftf : Option FileType) (maxResults : Nat) (mnm smt : Bool),
      (runGlob entries globPred ftf maxResults mnm smt).totalMatches =
        clampU32 (runGlob entries globPred ftf maxResults mnm
          smt).matchesList.length) ∧
    (∀ (entries : List GlobMatchM) (query : String) (maxResults : Nat),
      1 ≤ maxResults →
      ¬(asciiLowerStr (rustTrim query) ≠ "" ∧
        normalizeFuzzyText (asciiLowerStr (rustTrim query)) = "") →
      (fuzzyFindSync entries query maxResults).totalMatches =
        clampU32 (fuzzyScoredEntries entries (asciiLowerStr (rustTrim query))
          (normalizeFuzzyText (asciiLowerStr (rustTrim query)))).length ∧
      (fuzzyFindSync entries query maxResults).matchesList =
        (stableSortBy fuzzyLtComparator
          (fuzzyScoredEntries entries (asciiLowerStr (rustTrim query))
            (normalizeFuzzyText (asciiLowerStr (rustTrim query))))).take
          maxResults) ∧
    ((runGlob [⟨"x.ts", .file, none⟩, ⟨"y.ts", .file, none⟩] (fun _ => true)
        none 1 false false).totalMatches = 1 ∧
      (fuzzyFindSync [⟨"x.ts", .file, none⟩, ⟨"y.ts", .file, none⟩] ""
        1).totalMatches = 2 ∧
      (fuzzyFindSync [⟨"x.ts", .file, none⟩, ⟨"y.ts", .file, none⟩] ""
        1).matchesList.length = 1) := by
  refine ⟨?_, ?_, by decide, by decide, by decide⟩
  · intro entries globPred ftf maxResults mnm smt
    unfold runGlob
    by_cases h : maxResults = 0
    · simp [h, clampU32]
    · simp [h]
  · intro entries query maxResults h1 h2
    unfold fuzzyFindSync
    rw [if_neg (by omega), if_neg h2]
    exact ⟨rfl, rfl⟩

/-- Witness for C10's fuzzy clause at a concrete query and limit. -/
theorem C10_total_matches_witness :
    (1 ≤ 1 ∧
      ¬(asciiLowerStr (rustTrim "q") ≠ "" ∧
        normalizeFuzzyText (asciiLowerStr (rustTrim "q")) = "")) ∧
    (fuzzyFindSync [⟨"q", .file, none⟩, ⟨"zq", .file, none⟩] "q"
        1).totalMatches =
      clampU32 (fuzzyScoredEntries [⟨"q", .file, none⟩, ⟨"zq", .file, none⟩]
        (asciiLowerStr (rustTrim "q"))
        (normalizeFuzzyText (asciiLowerStr (rustTrim "q")))).length :=
  ⟨⟨by decide, by decide⟩,
    (C10_total_matches.2.1 [⟨"q", .file, none⟩, ⟨"zq", .file, none⟩] "q" 1
      (by decide) (by decide)).1⟩

end PiNatives
